import Mathlib

/-!
Verification of the quiz-generation and answer-evaluation core of a
lecture-to-notes tool (`app.py`).  The Python functions
`generate_mcq_from_transcript`, `evaluate_answers` and `process_media`
are shallowly embedded below; the random calls (`random.choice`,
`random.sample`, `random.shuffle`) are modelled by an explicit oracle
(`RandModel`) constrained to exactly the behaviours those calls can
exhibit.
-/

/-- Characters treated as whitespace by Python `str.split()`/`str.strip()`
and by the regex class `\s`. -/
def pyIsSpace (c : Char) : Bool :=
  c = ' ' || c = '\t' || c = '\n' || c = '\r' || c = '\x0b' || c = '\x0c'

/-- The character set `".,"` passed to `str.strip` in `app.py`. -/
def stripP (c : Char) : Bool :=
  c = '.' || c = ','

/-- Python `str.strip(chars)`: remove the maximal run of characters
satisfying `p` from BOTH ends of the list. -/
def stripEnds (p : Char → Bool) (l : List Char) : List Char :=
  ((l.dropWhile p).reverse.dropWhile p).reverse

/-- `w.strip(".,")` from `app.py`. -/
def stripPunct (s : String) : String :=
  ⟨stripEnds stripP s.data⟩

/-- Python `str.strip()` (no arguments): strip whitespace from both ends. -/
def stripWs (s : String) : String :=
  ⟨stripEnds pyIsSpace s.data⟩

/-- Split a character list at every character satisfying `p`, keeping
empty pieces (the behaviour of splitting on single separators). -/
def splitOnPred (p : Char → Bool) : List Char → List (List Char)
  | [] => [[]]
  | c :: cs =>
    if p c then [] :: splitOnPred p cs
    else
      match splitOnPred p cs with
      | [] => [[c]]
      | t :: ts => (c :: t) :: ts

/-- Python `str.split()` with no arguments: split on whitespace runs,
discarding empty pieces. -/
def pySplitWs (s : String) : List String :=
  ((splitOnPred pyIsSpace s.data).filter (fun t => t ≠ [])).map List.asString

/-- Prepend a character to the first piece of a split result. -/
def consHead (c : Char) : List (List Char) → List (List Char)
  | [] => [[c]]
  | t :: ts => (c :: t) :: ts

/-- A sentence terminator of the regex class `[.?!]`. -/
def isTerm (c : Char) : Bool :=
  c = '.' || c = '?' || c = '!'

/-- Whether the list starts with a whitespace character (the `\s+` part of
the split pattern must match at least one character). -/
def firstIsSpace : List Char → Bool
  | [] => false
  | c :: _ => pyIsSpace c

/-- `re.split(r'[.?!]\s+', transcript)` on character lists.  The flag
records whether we are still consuming the greedy `\s+` of a match just
found (in which case further whitespace is swallowed, and the next unit
starts at the first non-space character). -/
def splitSentAux : Bool → List Char → List (List Char)
  | _, [] => [[]]
  | skipping, c :: cs =>
    if skipping && pyIsSpace c then splitSentAux true cs
    else if isTerm c && firstIsSpace cs then [] :: splitSentAux true cs
    else consHead c (splitSentAux false cs)

/-- `re.split(r'[.?!]\s+', transcript)` from `app.py` line 36. -/
def splitSentences (s : String) : List String :=
  (splitSentAux false s.data).map List.asString

/-- The question record built by `generate_mcq_from_transcript`
(dict keys `question`, `options`, `answer`). -/
structure Question where
  question : String
  options : List String
  answer : String
deriving DecidableEq, Repr, Inhabited

/-- Oracle for the three random calls made in each loop iteration `i` of
`generate_mcq_from_transcript`: `random.choice` (line 44),
`random.sample` (line 50) and `random.shuffle` (line 52).  Indexing by the
iteration number lets distinct iterations draw independently, so every
run of the Python code is one instance of this structure. -/
structure RandModel where
  choice : Nat → List String → String
  sample : Nat → List String → Nat → List String
  shuffle : Nat → List String → List String

/-- The behaviours `random.choice`, `random.sample` and `random.shuffle`
can actually exhibit: `choice` returns a member of a nonempty list;
`sample l k` (for `k ≤ len l`) returns `k` entries drawn from distinct
positions of `l`, in some order (a sub-permutation); `shuffle` returns a
permutation of its input. -/
def RandModel.Valid (R : RandModel) : Prop :=
  (∀ i l, l ≠ [] → R.choice i l ∈ l) ∧
  (∀ i l k, k ≤ l.length →
    (R.sample i l k).length = k ∧ List.Subperm (R.sample i l k) l) ∧
  (∀ i l, List.Perm (R.shuffle i l) l)

/-- Line 41 of `app.py`:
`[w.strip(".,") for w in sentence.split() if len(w.strip(".,")) > 3]`. -/
def sentenceWords (sentence : String) : List String :=
  ((pySplitWs sentence).map stripPunct).filter (fun w => 3 < w.length)

/-- Lines 45-48 of `app.py`: the distractor pool
`[w.strip(".,") for w in transcript.split()
   if len(w.strip(".,").strip()) > 3 and w.strip(".,") != answer]`. -/
def allWords (transcript answer : String) : List String :=
  ((pySplitWs transcript).filter
    (fun w => 3 < (stripWs (stripPunct w)).length && stripPunct w ≠ answer)).map
    stripPunct

/-- `sentence[:60]` — the first 60 characters of a Python string. -/
def take60 (s : String) : String :=
  ⟨s.data.take 60⟩

/-- Line 30 and line 37 of `app.py`: the kept sentence list
`[s for s in re.split(r'[.?!]\s+', transcript) if len(s.split()) > 3][:num_questions]`. -/
def keptSentences (transcript : String) (num_questions : Nat) : List String :=
  ((splitSentences transcript).filter
    (fun s => 3 < (pySplitWs s).length)).take num_questions

/-- The `for i, sentence in enumerate(sentences)` loop of
`generate_mcq_from_transcript` (lines 40-57), with `i` the enumeration
index of the current sentence. -/
def buildQuestions (R : RandModel) (transcript : String) :
    Nat → List String → List Question
  | _, [] => []
  | i, sentence :: rest =>
    let words := sentenceWords sentence
    if words = [] then buildQuestions R transcript (i + 1) rest
    else
      let answer := R.choice i words
      let pool := allWords transcript answer
      let options := R.shuffle i (R.sample i pool (min 3 pool.length) ++ [answer])
      { question := toString (i + 1) ++ ". Key concept from: '" ++
          take60 sentence ++ "...'",
        options := options,
        answer := answer } :: buildQuestions R transcript (i + 1) rest

/-- `generate_mcq_from_transcript(transcript, num_questions=3)` from
`app.py` lines 35-57, parametrised by the randomness oracle. -/
def generate_mcq_from_transcript (R : RandModel) (transcript : String)
    (num_questions : Nat := 3) : List Question :=
  buildQuestions R transcript 0 (keptSentences transcript num_questions)

/-- `f"✅ Q{i+1}: Correct! ({answers[i]})"` from `app.py` line 97. -/
def correctLine (i : Nat) (sub : String) : String :=
  "✅ Q" ++ toString (i + 1) ++ ": Correct! (" ++ sub ++ ")"

/-- `f"❌ Q{i+1}: Wrong! Correct: {q['answer']}"` from `app.py` line 100. -/
def wrongLine (i : Nat) (ans : String) : String :=
  "❌ Q" ++ toString (i + 1) ++ ": Wrong! Correct: " ++ ans

/-- `f"\nFinal Score: {correct}/{len(quiz)}"` from `app.py` line 101. -/
def summaryLine (correct total : Nat) : String :=
  "\n" ++ "Final Score: " ++ toString correct ++ "/" ++ toString total

/-- `sep.join(parts)` — Python `str.join`. -/
def joinWith (sep : String) : List String → String
  | [] => ""
  | [x] => x
  | x :: y :: xs => x ++ sep ++ joinWith sep (y :: xs)

/-- The `for i, q in enumerate(quiz)` loop of `evaluate_answers`
(lines 95-100): returns the feedback lines and the correct count for the
iterations from index `i` on. -/
def evalLoop (answers : List String) : Nat → List Question → List String × Nat
  | _, [] => ([], 0)
  | i, q :: qs =>
    let rest := evalLoop answers (i + 1) qs
    if i < answers.length ∧ answers.getD i "" = q.answer then
      (correctLine i (answers.getD i "") :: rest.1, rest.2 + 1)
    else
      (wrongLine i q.answer :: rest.1, rest.2)

/-- `evaluate_answers(quiz, *answers)` from `app.py` lines 92-102. -/
def evaluate_answers (quiz : List Question) (answers : List String) : String :=
  let fb := evalLoop answers 0 quiz
  joinWith "\n" (fb.1 ++ [summaryLine fb.2 quiz.length])

/-- `process_media(file_path)` from `app.py` lines 62-78.  The external
collaborators (audio decoding via `extract_audio`/pydub and Whisper
transcription, scoped out of the core) are abstracted as `upstream`,
which returns the list of segment texts or the message of a raised
exception; the downloadable transcript artifact written by
`create_temp_file` is modelled by its content. -/
def process_media (upstream : String → Except String (List String))
    (R : RandModel) (file_path : Option String) :
    String × List Question × Option String :=
  match file_path with
  | none => ("Please upload a file.", [], none)
  | some p =>
    if p = "" then ("Please upload a file.", [], none)
    else
      match upstream p with
      | .error e => ("Error: " ++ e, [], none)
      | .ok segs =>
        let transcript := joinWith " " segs
        if stripWs transcript = "" then ("No transcript generated.", [], none)
        else
          (transcript, generate_mcq_from_transcript R transcript 3,
            some transcript)

/-- A deterministic instance of the randomness oracle, used to evaluate
the generator on concrete inputs: `choice` takes the head, `sample` the
first `k` entries, `shuffle` the identity. -/
def detR : RandModel where
  choice := fun _ l => l.headD ""
  sample := fun _ l k => l.take k
  shuffle := fun _ l => l

/-- The token transformation the specification attributes to the code:
strip `.` and `,` from the TRAILING end only, leaving the front of the
token unchanged.  (The code's `w.strip(".,")` is `stripPunct`, which
strips both ends; this definition exists to compare the two.) -/
def stripPunctTrailing (s : String) : String :=
  ⟨(s.data.reverse.dropWhile stripP).reverse⟩

/-- `sentenceWords` as it would read under the trailing-only stripping
described by the specification. -/
def sentenceWordsTrailing (sentence : String) : List String :=
  ((pySplitWs sentence).map stripPunctTrailing).filter (fun w => 3 < w.length)

/-- `allWords` as it would read under the trailing-only stripping
described by the specification. -/
def allWordsTrailing (transcript answer : String) : List String :=
  ((pySplitWs transcript).filter
    (fun w => 3 < (stripWs (stripPunctTrailing w)).length &&
      stripPunctTrailing w ≠ answer)).map stripPunctTrailing

/-- The question loop under the trailing-only stripping described by the
specification; identical to `buildQuestions` except for the stripping. -/
def buildQuestionsTrailing (R : RandModel) (transcript : String) :
    Nat → List String → List Question
  | _, [] => []
  | i, sentence :: rest =>
    let words := sentenceWordsTrailing sentence
    if words = [] then buildQuestionsTrailing R transcript (i + 1) rest
    else
      let answer := R.choice i words
      let pool := allWordsTrailing transcript answer
      let options := R.shuffle i (R.sample i pool (min 3 pool.length) ++ [answer])
      { question := toString (i + 1) ++ ". Key concept from: '" ++
          take60 sentence ++ "...'",
        options := options,
        answer := answer } :: buildQuestionsTrailing R transcript (i + 1) rest

/-- The quiz generator under the trailing-only stripping described by the
specification, for comparison with `generate_mcq_from_transcript`. -/
def generate_mcq_trailing (R : RandModel) (transcript : String)
    (num_questions : Nat := 3) : List Question :=
  buildQuestionsTrailing R transcript 0 (keptSentences transcript num_questions)

/-- A stub for the external decode-and-transcribe pipeline that returns
whitespace-only segment texts, used to exercise the empty-transcript
branch of `process_media` on a concrete input. -/
def upstreamBlank : String → Except String (List String) :=
  fun _ => .ok ["", " "]

/-- The deterministic oracle is a legitimate behaviour of the three
`random` calls. -/
theorem detR_valid : detR.Valid := by
  refine ⟨fun i l hl => ?_, fun i l k hk => ⟨?_, ?_⟩, fun i l => ?_⟩
  · cases l with
    | nil => exact absurd rfl hl
    | cons a t => simp [detR]
  · simp [detR, Nat.min_eq_left hk]
  · exact (List.take_sublist k l).subperm
  · exact List.Perm.refl l

/-- C10: for an empty Quiz and any Answer Submission the Evaluator
returns a report with no per-question lines, only the final summary line
scoring 0 out of 0, and does not fail. -/
theorem evaluator_empty_quiz (answers : List String) :
    evaluate_answers [] answers = "\nFinal Score: 0/0" := by
  simp only [evaluate_answers]
  rw [show evalLoop answers 0 [] = ([], 0) from rfl]
  rfl

/-- C4: the Segmenter splits at terminator-plus-whitespace boundaries
and keeps only units with strictly more than 3 whitespace tokens; on
"Cats are great. Dogs too! Ok." the three units have 3, 2 and 1 words,
all are dropped, and the kept list (hence the generated quiz) is empty
for every bound and every randomness. -/
theorem segmenter_floor_example :
    splitSentences "Cats are great. Dogs too! Ok." =
      ["Cats are great", "Dogs too", "Ok."] ∧
    (∀ n, keptSentences "Cats are great. Dogs too! Ok." n = []) ∧
    (∀ R n, generate_mcq_from_transcript R "Cats are great. Dogs too! Ok." n
      = []) := by
  have h : (splitSentences "Cats are great. Dogs too! Ok.").filter
      (fun s => 3 < (pySplitWs s).length) = [] := by decide
  have hk : ∀ n, keptSentences "Cats are great. Dogs too! Ok." n = [] :=
    fun n => by simp [keptSentences, h]
  exact ⟨by decide, hk,
    fun R n => by simp [generate_mcq_from_transcript, hk, buildQuestions]⟩

/-- C8: the Evaluator is deterministic and pure over (Quiz, Submission):
its embedding reads nothing but its two arguments (the Python function
touches only its parameters and a local list), so equal inputs give
equal report strings and the Quiz value is never altered. -/
theorem evaluator_deterministic (q₁ q₂ : List Question) (a₁ a₂ : List String)
    (hq : q₁ = q₂) (ha : a₁ = a₂) :
    evaluate_answers q₁ a₁ = evaluate_answers q₂ a₂ := by
  rw [hq, ha]

/-- Witness for `evaluator_deterministic` at a concrete quiz and
submission. -/
theorem evaluator_deterministic_witness :
    evaluate_answers [{ question := "q", options := ["a"], answer := "a" }] ["a"]
      = evaluate_answers [{ question := "q", options := ["a"], answer := "a" }]
        ["a"] :=
  evaluator_deterministic _ _ _ _ rfl rfl

/-- One step of the evaluation loop: the feedback list gains one line per
question, correct or wrong according to the submission at that index. -/
theorem evalLoop_cons_fst (answers : List String) (i : Nat) (q : Question)
    (qs : List Question) :
    (evalLoop answers i (q :: qs)).1 =
      (if i < answers.length ∧ answers.getD i "" = q.answer
        then correctLine i (answers.getD i "")
        else wrongLine i q.answer) :: (evalLoop answers (i + 1) qs).1 := by
  simp only [evalLoop]
  split <;> rfl

/-- One step of the evaluation loop: the correct counter increments
exactly on a match. -/
theorem evalLoop_cons_snd (answers : List String) (i : Nat) (q : Question)
    (qs : List Question) :
    (evalLoop answers i (q :: qs)).2 =
      (evalLoop answers (i + 1) qs).2 +
        (if i < answers.length ∧ answers.getD i "" = q.answer then 1 else 0) := by
  simp only [evalLoop]
  split <;> simp

/-- The evaluation loop emits exactly one line per question. -/
theorem evalLoop_fst_length (answers : List String) :
    ∀ (qs : List Question) (i : Nat),
      ((evalLoop answers i qs).1).length = qs.length := by
  intro qs
  induction qs with
  | nil => intro i; rfl
  | cons q qs ih =>
    intro i
    rw [evalLoop_cons_fst]
    simp [ih (i + 1)]

/-- The line the evaluation loop emits for the question at offset `j`:
correct (naming the submitted value) exactly when the submission has an
entry there matching the recorded answer, otherwise wrong (naming the
expected answer). -/
theorem evalLoop_fst_getD (answers : List String) :
    ∀ (qs : List Question) (i j : Nat), j < qs.length →
      ((evalLoop answers i qs).1).getD j "" =
        (if i + j < answers.length ∧
            answers.getD (i + j) "" = (qs.getD j default).answer
          then correctLine (i + j) (answers.getD (i + j) "")
          else wrongLine (i + j) (qs.getD j default).answer) := by
  intro qs
  induction qs with
  | nil => intro i j h; exact absurd h (by simp)
  | cons q qs ih =>
    intro i j h
    cases j with
    | zero =>
      rw [evalLoop_cons_fst]
      simp
    | succ j =>
      rw [evalLoop_cons_fst, List.getD_cons_succ,
        ih (i + 1) j (by simpa using Nat.lt_of_succ_lt_succ h),
        show i + (j + 1) = i + 1 + j from by omega]
      simp

/-- The correct counter equals the number of indices whose submission
entry exists and matches the recorded answer. -/
theorem evalLoop_snd_count (answers : List String) :
    ∀ (qs : List Question) (i : Nat),
      (evalLoop answers i qs).2 =
        (List.range qs.length).countP
          (fun j => decide (i + j < answers.length ∧
            answers.getD (i + j) "" = (qs.getD j default).answer)) := by
  intro qs
  induction qs with
  | nil => intro i; rfl
  | cons q qs ih =>
    intro i
    rw [evalLoop_cons_snd, List.length_cons, List.range_succ_eq_map,
      List.countP_cons, List.countP_map, ih (i + 1)]
    have harg : ∀ j : Nat,
        (decide (i + (j + 1) < answers.length ∧
          answers.getD (i + (j + 1)) "" = ((q :: qs).getD (j + 1) default).answer))
        = (decide (i + 1 + j < answers.length ∧
          answers.getD (i + 1 + j) "" = (qs.getD j default).answer)) := by
      intro j
      rw [show i + (j + 1) = i + 1 + j from by omega, List.getD_cons_succ]
    simp only [Function.comp_def, Nat.succ_eq_add_one]
    simp only [harg]
    have h0 : (decide (i + 0 < answers.length ∧
        answers.getD (i + 0) "" = ((q :: qs).getD 0 default).answer))
        = (decide (i < answers.length ∧ answers.getD i "" = q.answer)) := by
      rw [Nat.add_zero, List.getD_cons_zero]
    rw [h0]
    by_cases hc : i < answers.length ∧ answers.getD i "" = q.answer
    · simp [hc, Nat.add_comm]
    · simp [hc]

/-- Entries of the submission beyond the quiz length are never read:
evaluating against a truncated submission gives the same loop result. -/
theorem evalLoop_take (answers : List String) :
    ∀ (qs : List Question) (i m : Nat), i + qs.length ≤ m →
      evalLoop (answers.take m) i qs = evalLoop answers i qs := by
  intro qs
  induction qs with
  | nil => intro i m hm; rfl
  | cons q qs ih =>
    intro i m hm
    simp only [List.length_cons] at hm
    have him : i < m := by omega
    have hgd : (answers.take m).getD i "" = answers.getD i "" := by
      rw [List.getD_eq_getElem?_getD, List.getD_eq_getElem?_getD,
        List.getElem?_take_of_lt him]
    have hrec : evalLoop (answers.take m) (i + 1) qs = evalLoop answers (i + 1) qs :=
      ih (i + 1) m (by omega)
    by_cases hc : i < answers.length ∧ answers.getD i "" = q.answer
    · have hc' : i < (answers.take m).length ∧
          (answers.take m).getD i "" = q.answer :=
        ⟨by simp only [List.length_take]; omega, by rw [hgd]; exact hc.2⟩
      simp only [evalLoop]
      rw [hrec, if_pos hc', if_pos hc, hgd]
    · have hc' : ¬ (i < (answers.take m).length ∧
          (answers.take m).getD i "" = q.answer) := by
        intro hx
        exact hc ⟨by simp only [List.length_take] at hx; omega,
          by rw [← hgd]; exact hx.2⟩
      simp only [evalLoop]
      rw [hrec, if_neg hc', if_neg hc]

/-- C3: the Evaluator records, for each index `j` below the quiz length,
a correct line naming the submitted value exactly when the submission has
an entry at `j` equal to the recorded answer, and otherwise a wrong line
naming the expected answer; the correct count is the number of such
matches; the report is the per-question lines followed by one summary
line with the count and the quiz length; and on the concrete
fox/blue quiz with submission [fox, red] the report is a correct line
for Q1, a wrong line for Q2 naming blue, and the summary 1/2. -/
theorem evaluator_report_lines (quiz : List Question) (answers : List String) :
    ((evalLoop answers 0 quiz).1).length = quiz.length ∧
    (∀ j, j < quiz.length →
      ((evalLoop answers 0 quiz).1).getD j "" =
        (if j < answers.length ∧
            answers.getD j "" = (quiz.getD j default).answer
          then correctLine j (answers.getD j "")
          else wrongLine j (quiz.getD j default).answer)) ∧
    ((evalLoop answers 0 quiz).2 =
      (List.range quiz.length).countP
        (fun j => decide (j < answers.length ∧
          answers.getD j "" = (quiz.getD j default).answer))) ∧
    (evaluate_answers quiz answers =
      joinWith "\n" ((evalLoop answers 0 quiz).1 ++
        [summaryLine (evalLoop answers 0 quiz).2 quiz.length])) ∧
    (evaluate_answers
        [{ question := "q1", options := ["fox", "red"], answer := "fox" },
         { question := "q2", options := ["blue", "red"], answer := "blue" }]
        ["fox", "red"] =
      "✅ Q1: Correct! (fox)\n❌ Q2: Wrong! Correct: blue\n\nFinal Score: 1/2") := by
  refine ⟨evalLoop_fst_length answers quiz 0, ?_, ?_, rfl, by decide⟩
  · intro j hj
    have h := evalLoop_fst_getD answers quiz 0 j hj
    simpa only [Nat.zero_add] using h
  · have h := evalLoop_snd_count answers quiz 0
    simpa only [Nat.zero_add] using h

/-- Witness for `evaluator_report_lines`: on a one-question quiz with a
matching one-entry submission, line 0 is the correct line naming the
submitted value. -/
theorem evaluator_report_lines_witness :
    ((evalLoop ["a"] 0
      [{ question := "q", options := ["a"], answer := "a" }]).1).getD 0 ""
      = correctLine 0 "a" := by
  have h := (evaluator_report_lines
    [{ question := "q", options := ["a"], answer := "a" }] ["a"]).2.1 0
    (by decide)
  simpa using h

/-- C6: a Submission whose length differs from the Quiz's length is
never an error: truncating the submission to the quiz length changes
nothing (extra entries are ignored), every quiz position at or beyond
the submission length gets a wrong line, and a three-question quiz with
a one-entry submission reports positions 2 and 3 as wrong. -/
theorem evaluator_length_mismatch (quiz : List Question) (answers : List String) :
    (evaluate_answers quiz (answers.take quiz.length) =
      evaluate_answers quiz answers) ∧
    (∀ j, answers.length ≤ j → j < quiz.length →
      ((evalLoop answers 0 quiz).1).getD j "" =
        wrongLine j (quiz.getD j default).answer) ∧
    (evaluate_answers
        [{ question := "q1", options := ["a"], answer := "a" },
         { question := "q2", options := ["b"], answer := "b" },
         { question := "q3", options := ["c"], answer := "c" }]
        ["a"] =
      "✅ Q1: Correct! (a)\n❌ Q2: Wrong! Correct: b\n❌ Q3: Wrong! Correct: c\n\nFinal Score: 1/3") := by
  refine ⟨?_, ?_, by decide⟩
  · simp only [evaluate_answers]
    rw [evalLoop_take answers quiz 0 quiz.length (by omega)]
  · intro j h1 h2
    have h := evalLoop_fst_getD answers quiz 0 j h2
    simp only [Nat.zero_add] at h
    rw [h, if_neg (fun hx => absurd hx.1 (by omega))]

/-- Witness for `evaluator_length_mismatch`: a quiz evaluated against an
over-long submission equals its truncation, and with an empty submission
position 0 gets a wrong line. -/
theorem evaluator_length_mismatch_witness :
    (evaluate_answers [{ question := "q", options := ["a"], answer := "a" }]
        (["a", "b"].take 1) =
      evaluate_answers [{ question := "q", options := ["a"], answer := "a" }]
        ["a", "b"]) ∧
    ((evalLoop [] 0
      [{ question := "q", options := ["a"], answer := "a" }]).1).getD 0 ""
      = wrongLine 0 "a" := by
  constructor
  · exact (evaluator_length_mismatch
      [{ question := "q", options := ["a"], answer := "a" }] ["a", "b"]).1
  · have h := (evaluator_length_mismatch
      [{ question := "q", options := ["a"], answer := "a" }] []).2.1 0
      (by decide) (by decide)
    simpa using h

/-- Every question the builder loop emits comes from a sentence at some
offset `j` of the remaining list: its answer is the random choice among
that sentence's eligible words, its options are the shuffled sample from
the distractor pool plus the answer, and its prompt carries the
enumeration index and the 60-character sentence preview. -/
theorem buildQuestions_mem_spec (R : RandModel) (t : String) :
    ∀ (l : List String) (i0 : Nat) (q : Question),
      q ∈ buildQuestions R t i0 l →
      ∃ j, j < l.length ∧
        sentenceWords (l.getD j "") ≠ [] ∧
        q.answer = R.choice (i0 + j) (sentenceWords (l.getD j "")) ∧
        q.options = R.shuffle (i0 + j)
          (R.sample (i0 + j) (allWords t q.answer)
            (min 3 (allWords t q.answer).length) ++ [q.answer]) ∧
        q.question = toString (i0 + j + 1) ++ ". Key concept from: '" ++
          take60 (l.getD j "") ++ "...'" := by
  intro l
  induction l with
  | nil => intro i0 q hq; exact absurd hq (by simp [buildQuestions])
  | cons s rest ih =>
    intro i0 q hq
    by_cases hw : sentenceWords s = []
    · rw [show buildQuestions R t i0 (s :: rest) =
          buildQuestions R t (i0 + 1) rest from by
        simp [buildQuestions, hw]] at hq
      obtain ⟨j, hj, h1, h2, h3, h4⟩ := ih (i0 + 1) q hq
      refine ⟨j + 1, by simpa using Nat.succ_lt_succ hj, ?_, ?_, ?_, ?_⟩
      · rw [List.getD_cons_succ]; exact h1
      · rw [List.getD_cons_succ,
          show i0 + (j + 1) = i0 + 1 + j from by omega]; exact h2
      · rw [show i0 + (j + 1) = i0 + 1 + j from by omega]; exact h3
      · rw [List.getD_cons_succ,
          show i0 + (j + 1) = i0 + 1 + j from by omega]; exact h4
    · simp only [buildQuestions, if_neg hw] at hq
      rcases List.mem_cons.mp hq with hq | hq
      · subst hq
        exact ⟨0, by simp, by simpa using hw, by simp, by simp, by simp⟩
      · obtain ⟨j, hj, h1, h2, h3, h4⟩ := ih (i0 + 1) q hq
        refine ⟨j + 1, by simpa using Nat.succ_lt_succ hj, ?_, ?_, ?_, ?_⟩
        · rw [List.getD_cons_succ]; exact h1
        · rw [List.getD_cons_succ,
            show i0 + (j + 1) = i0 + 1 + j from by omega]; exact h2
        · rw [show i0 + (j + 1) = i0 + 1 + j from by omega]; exact h3
        · rw [List.getD_cons_succ,
            show i0 + (j + 1) = i0 + 1 + j from by omega]; exact h4

/-- The builder loop emits at most one question per sentence. -/
theorem buildQuestions_length_le (R : RandModel) (t : String) :
    ∀ (l : List String) (i0 : Nat),
      (buildQuestions R t i0 l).length ≤ l.length := by
  intro l
  induction l with
  | nil => intro i0; simp [buildQuestions]
  | cons s rest ih =>
    intro i0
    by_cases hw : sentenceWords s = []
    · rw [show buildQuestions R t i0 (s :: rest) =
          buildQuestions R t (i0 + 1) rest from by
        simp [buildQuestions, hw]]
      exact le_trans (ih (i0 + 1)) (by simp)
    · simp only [buildQuestions, if_neg hw, List.length_cons]
      exact Nat.succ_le_succ (ih (i0 + 1))

/-- C1: under every legitimate behaviour of the random calls, the quiz
has at most `num_questions` questions, each question's correct answer is
one of its options, and each options list has at most 4 entries. -/
theorem quiz_structural_invariants (R : RandModel) (hR : R.Valid)
    (t : String) (n : Nat) :
    (generate_mcq_from_transcript R t n).length ≤ n ∧
    ∀ q ∈ generate_mcq_from_transcript R t n,
      q.answer ∈ q.options ∧ q.options.length ≤ 4 := by
  constructor
  · refine le_trans (buildQuestions_length_le R t (keptSentences t n) 0) ?_
    simp only [keptSentences, List.length_take]
    exact Nat.min_le_left _ _
  · intro q hq
    obtain ⟨j, hj, hw, ha, ho, hp⟩ :=
      buildQuestions_mem_spec R t (keptSentences t n) 0 q hq
    have hpool := Nat.min_le_right 3 (allWords t q.answer).length
    have hs := hR.2.1 (0 + j) (allWords t q.answer)
      (min 3 (allWords t q.answer).length) hpool
    have hperm := hR.2.2 (0 + j)
      (R.sample (0 + j) (allWords t q.answer)
        (min 3 (allWords t q.answer).length) ++ [q.answer])
    constructor
    · rw [ho]
      exact hperm.mem_iff.mpr (by simp)
    · rw [ho, hperm.length_eq]
      simp only [List.length_append, List.length_cons, List.length_nil, hs.1]
      omega

/-- Witness for `quiz_structural_invariants` on the spec's end-to-end
transcript with bound 2. -/
theorem quiz_structural_invariants_witness :
    (generate_mcq_from_transcript detR
      "The quick brown fox jumps over the lazy dog. Roses are red violets are blue today."
      2).length ≤ 2 ∧
    ∀ q ∈ generate_mcq_from_transcript detR
      "The quick brown fox jumps over the lazy dog. Roses are red violets are blue today."
      2, q.answer ∈ q.options ∧ q.options.length ≤ 4 :=
  quiz_structural_invariants detR detR_valid
    "The quick brown fox jumps over the lazy dog. Roses are red violets are blue today."
    2

/-- C2 counterexample: with a legitimate behaviour of the random calls
(take the head, sample the first `k`, keep order) the transcript
"good cats good cats good." produces a question whose options list
contains the string "cats" twice — `random.sample` draws distinct
positions, not distinct strings, so a repeated transcript word can
appear twice among the options. -/
theorem options_duplicate_cx :
    detR.Valid ∧
    ∃ q ∈ generate_mcq_from_transcript detR "good cats good cats good." 3,
      ¬ q.options.Nodup :=
  ⟨detR_valid, by decide⟩

/-- C2 amended: the distractor pool excludes exact matches of the
correct answer and the sample is drawn without replacement from the
pool, so the correct answer occurs exactly once among the options (but
other option strings may repeat). -/
theorem options_correct_answer_once (R : RandModel) (hR : R.Valid)
    (t : String) (n : Nat) (q : Question)
    (hq : q ∈ generate_mcq_from_transcript R t n) :
    q.options.count q.answer = 1 := by
  obtain ⟨j, hj, hw, ha, ho, hp⟩ :=
    buildQuestions_mem_spec R t (keptSentences t n) 0 q hq
  have hs := hR.2.1 (0 + j) (allWords t q.answer)
    (min 3 (allWords t q.answer).length)
    (Nat.min_le_right 3 (allWords t q.answer).length)
  have hperm := hR.2.2 (0 + j)
    (R.sample (0 + j) (allWords t q.answer)
      (min 3 (allWords t q.answer).length) ++ [q.answer])
  rw [ho, hperm.count_eq, List.count_append]
  have hnot : q.answer ∉ R.sample (0 + j) (allWords t q.answer)
      (min 3 (allWords t q.answer).length) := by
    intro hmem
    obtain ⟨w, hwmem, hwe⟩ := List.mem_map.mp (hs.2.subset hmem)
    have hpred := (List.mem_filter.mp hwmem).2
    simp only [Bool.and_eq_true, decide_eq_true_eq] at hpred
    exact hpred.2 hwe
  rw [List.count_eq_zero.mpr hnot, List.count_singleton_self]

/-- Witness for `options_correct_answer_once` on a concrete generated
question. -/
theorem options_correct_answer_once_witness :
    ({ question := "1. Key concept from: 'alpha beta gamma delta....'",
       options := ["beta", "gamma", "delta", "alpha"],
       answer := "alpha" } : Question).options.count "alpha" = 1 :=
  options_correct_answer_once detR detR_valid "alpha beta gamma delta." 3
    { question := "1. Key concept from: 'alpha beta gamma delta....'",
      options := ["beta", "gamma", "delta", "alpha"],
      answer := "alpha" }
    (by decide)

/-- C9: every generated question originates from the kept sentence at
some 0-based index `i`, its prompt is the 1-based index `i + 1` followed
by the quoted first-60-character preview of that sentence and an
ellipsis, and its correct answer is one of that sentence's eligible
words. -/
theorem question_prompt_numbering (R : RandModel) (hR : R.Valid)
    (t : String) (n : Nat) (q : Question)
    (hq : q ∈ generate_mcq_from_transcript R t n) :
    ∃ i, i < (keptSentences t n).length ∧
      q.question = toString (i + 1) ++ ". Key concept from: '" ++
        take60 ((keptSentences t n).getD i "") ++ "...'" ∧
      q.answer ∈ sentenceWords ((keptSentences t n).getD i "") := by
  obtain ⟨j, hj, hw, ha, ho, hp⟩ :=
    buildQuestions_mem_spec R t (keptSentences t n) 0 q hq
  refine ⟨j, hj, ?_, ?_⟩
  · simpa only [Nat.zero_add] using hp
  · rw [ha]
    exact hR.1 (0 + j) _ hw

/-- Witness for `question_prompt_numbering` on a concrete transcript and
its generated question. -/
theorem question_prompt_numbering_witness :
    ∃ i, i < (keptSentences "one two three four five." 3).length ∧
      ({ question := "1. Key concept from: 'one two three four five....'",
         options := ["four", "five", "three"],
         answer := "three" } : Question).question =
        toString (i + 1) ++ ". Key concept from: '" ++
          take60 ((keptSentences "one two three four five." 3).getD i "") ++
          "...'" ∧
      ({ question := "1. Key concept from: 'one two three four five....'",
         options := ["four", "five", "three"],
         answer := "three" } : Question).answer ∈
        sentenceWords ((keptSentences "one two three four five." 3).getD i "") :=
  question_prompt_numbering detR detR_valid "one two three four five." 3
    { question := "1. Key concept from: 'one two three four five....'",
      options := ["four", "five", "three"],
      answer := "three" }
    (by decide)

/-- After dropping the leading run of `p`-characters, no `p`-character
leads the remainder. -/
theorem takeWhile_dropWhile_nil (p : Char → Bool) :
    ∀ l : List Char, (l.dropWhile p).takeWhile p = [] := by
  intro l
  induction l with
  | nil => rfl
  | cons c cs ih =>
    by_cases h : p c
    · simp [List.dropWhile_cons, h, ih]
    · simp [List.dropWhile_cons, h, List.takeWhile_cons]

/-- Dropping a prefix from a list ending in a non-`p` character keeps
that final character. -/
theorem dropWhile_append_last (p : Char → Bool) (c : Char) (hc : p c = false) :
    ∀ u : List Char, ∃ y, (u ++ [c]).dropWhile p = y ++ [c] := by
  intro u
  induction u with
  | nil => exact ⟨[], by simp [List.dropWhile_cons, hc]⟩
  | cons d u ih =>
    by_cases h : p d
    · obtain ⟨y, hy⟩ := ih
      exact ⟨y, by simp [List.dropWhile_cons, h, hy]⟩
    · exact ⟨d :: u, by simp [List.dropWhile_cons, h]⟩

/-- The two-sided strip leaves no strippable character at either end. -/
theorem takeWhile_stripEnds (p : Char → Bool) (l : List Char) :
    (stripEnds p l).takeWhile p = [] ∧
    (stripEnds p l).reverse.takeWhile p = [] := by
  constructor
  · show (((l.dropWhile p).reverse.dropWhile p).reverse).takeWhile p = []
    cases hm2 : l.dropWhile p with
    | nil => simp
    | cons c cs =>
      have hc : p c = false := by
        have htw := takeWhile_dropWhile_nil p l
        rw [hm2] at htw
        by_cases hpc : p c
        · rw [List.takeWhile_cons, if_pos hpc] at htw
          exact absurd htw (by simp)
        · exact Bool.eq_false_iff.mpr hpc
      obtain ⟨y, hy⟩ := dropWhile_append_last p c hc cs.reverse
      rw [List.reverse_cons, hy, List.reverse_append]
      simp [List.takeWhile_cons, hc]
  · show ((((l.dropWhile p).reverse.dropWhile p).reverse).reverse).takeWhile p = []
    rw [List.reverse_reverse]
    exact takeWhile_dropWhile_nil p _

/-- Any character list decomposes as its leading strippable run, the
two-sided strip, and its trailing strippable run. -/
theorem stripEnds_decomposition (p : Char → Bool) (l : List Char) :
    l = l.takeWhile p ++ stripEnds p l ++
      ((l.dropWhile p).reverse.takeWhile p).reverse := by
  have e2 : l.dropWhile p =
      stripEnds p l ++ ((l.dropWhile p).reverse.takeWhile p).reverse := by
    calc l.dropWhile p
        = ((l.dropWhile p).reverse).reverse := (List.reverse_reverse _).symm
      _ = ((l.dropWhile p).reverse.takeWhile p ++
            (l.dropWhile p).reverse.dropWhile p).reverse := by
          rw [List.takeWhile_append_dropWhile]
      _ = stripEnds p l ++ ((l.dropWhile p).reverse.takeWhile p).reverse := by
          rw [List.reverse_append]
          rfl
  have e0 : l.takeWhile p ++ l.dropWhile p = l :=
    List.takeWhile_append_dropWhile p l
  conv_lhs => rw [← e0]
  rw [List.append_assoc]
  exact congrArg (fun x => l.takeWhile p ++ x) e2

/-- C5 counterexample: the code's per-token transform `w.strip(".,")`
strips BOTH ends, not only the trailing end.  On the transcript
",abc de fg hi jk" the code strips ",abc" down to "abc" (length 3, below
the floor) and produces no question, while the trailing-only reading of
the same pipeline keeps ",abc" (length 4) eligible and produces one. -/
theorem strip_trailing_cx :
    detR.Valid ∧
    generate_mcq_from_transcript detR ",abc de fg hi jk" 3 = [] ∧
    generate_mcq_trailing detR ",abc de fg hi jk" 3 ≠ [] ∧
    stripPunct ",abc" ≠ stripPunctTrailing ",abc" :=
  ⟨detR_valid, by decide, by decide, by decide⟩

/-- C5 amended: before the length filter, the answer choice and the
distractor pool, each token is stripped of its maximal leading AND
trailing runs of `.`/`,` (Python `strip` is two-sided); concretely the
builder turns the token ",,alpha" into the correct answer "alpha". -/
theorem strip_both_ends_characterization :
    (∀ s : String, ∃ a b, s.data = a ++ (stripPunct s).data ++ b ∧
      (∀ c ∈ a, stripP c = true) ∧ (∀ c ∈ b, stripP c = true) ∧
      (stripPunct s).data.takeWhile stripP = [] ∧
      (stripPunct s).data.reverse.takeWhile stripP = []) ∧
    (generate_mcq_from_transcript detR ",,alpha beta gamma delta." 3).map
      Question.answer = ["alpha"] := by
  constructor
  · intro s
    refine ⟨s.data.takeWhile stripP,
      ((s.data.dropWhile stripP).reverse.takeWhile stripP).reverse,
      stripEnds_decomposition stripP s.data, ?_, ?_,
      (takeWhile_stripEnds stripP s.data).1,
      (takeWhile_stripEnds stripP s.data).2⟩
    · intro c hc
      exact List.mem_takeWhile_imp hc
    · intro c hc
      exact List.mem_takeWhile_imp (List.mem_reverse.mp hc)
  · decide

/-- C7: `process_media` on a missing or empty file path answers with the
upload message, an empty quiz and no artifact; and whenever the external
decode/transcribe pipeline yields segments whose space-joined transcript
is empty or whitespace-only, it answers with the no-transcript message,
an empty quiz and no artifact.  Being a total function, it returns in
every case rather than raising. -/
theorem process_media_empty_inputs
    (upstream : String → Except String (List String)) (R : RandModel) :
    (∀ fp : Option String, (fp = none ∨ fp = some "") →
      process_media upstream R fp = ("Please upload a file.", [], none)) ∧
    (∀ p segs, p ≠ "" → upstream p = .ok segs →
      stripWs (joinWith " " segs) = "" →
      process_media upstream R (some p) =
        ("No transcript generated.", [], none)) := by
  constructor
  · rintro fp (rfl | rfl)
    · rfl
    · rfl
  · intro p segs hp hup hws
    simp only [process_media]
    rw [if_neg hp, hup]
    exact if_pos hws

/-- Witness for `process_media_empty_inputs`: no file path, and a
pipeline returning whitespace-only segments. -/
theorem process_media_empty_inputs_witness :
    process_media upstreamBlank detR none = ("Please upload a file.", [], none) ∧
    process_media upstreamBlank detR (some "x") =
      ("No transcript generated.", [], none) :=
  ⟨(process_media_empty_inputs upstreamBlank detR).1 none (Or.inl rfl),
   (process_media_empty_inputs upstreamBlank detR).2 "x" ["", " "]
     (by decide) rfl (by decide)⟩

